import Mathlib

/-!
Verification of the R-to-Python line transducer in `src/R2Python.py`.

The program is a regex-driven, line-oriented rewriter.  This file gives a
shallow embedding of its string-processing core: each Python regex
substitution or search is embedded as an explicit left-to-right scanner over
`List Char`, mirroring Python `re` semantics (leftmost match, lazy/greedy
groups, `\b` word boundaries against the ASCII word class, `.` not matching a
newline).  Character classes are modelled at ASCII, which covers every input
the rewriter's patterns can themselves produce or consume.

Naming follows the source where possible; each definition's doc comment
points at the function (and line range) of `src/R2Python.py` it embeds.
-/

namespace R2Py

/-- ASCII model of the regex word class `\w` = `[A-Za-z0-9_]`. -/
def isWordCh (c : Char) : Bool := c.isAlphanum || c = '_'

/-- ASCII model of the regex whitespace class `\s` (also used for Python's
`str.strip` family). -/
def isSpaceCh (c : Char) : Bool :=
  c = ' ' || c = '\t' || c = '\n' || c = '\r' || c = '\x0b' || c = '\x0c'

/-- The regex digit class `\d` = `[0-9]`. -/
def isDigitCh (c : Char) : Bool := c.isDigit

/-- The regex class `[A-Z]`. -/
def isUpperCh (c : Char) : Bool := 'A' ≤ c && c ≤ 'Z'

/-- The regex class `[a-z0-9]` used at the camel-case boundary. -/
def isLowDig (c : Char) : Bool := ('a' ≤ c && c ≤ 'z') || c.isDigit

/-- ASCII model of Python `str.lower` applied to one character. -/
def toLowerCh (c : Char) : Char :=
  if isUpperCh c then Char.ofNat (c.toNat + 32) else c

/-- Match a literal character sequence at the head of the input, returning the
rest on success. -/
def matchLit : List Char → List Char → Option (List Char)
  | [], l => some l
  | _ :: _, [] => none
  | p :: ps, c :: cs => if p = c then matchLit ps cs else none

/-- Case-insensitive variant of `matchLit`, for patterns compiled with
`re.IGNORECASE` (ASCII case folding). -/
def matchLitCI : List Char → List Char → Option (List Char)
  | [], l => some l
  | _ :: _, [] => none
  | p :: ps, c :: cs => if toLowerCh p = toLowerCh c then matchLitCI ps cs else none

/-- Python `str.rstrip()` on a character list. -/
def pyRstrip (l : List Char) : List Char := (l.reverse.dropWhile isSpaceCh).reverse

/-- Python `str.strip()` on a character list. -/
def pyStrip (l : List Char) : List Char := pyRstrip (l.dropWhile isSpaceCh)

/-- Python `str.rstrip('\n')` on a character list. -/
def rstripNl (l : List Char) : List Char := (l.reverse.dropWhile (· = '\n')).reverse

/-- A lazy group `(.*?)` followed by a literal (non-newline) stop character:
returns the shortest prefix (which cannot contain a newline, since `.` does
not match one) before the first `stop`, together with the text after `stop`. -/
def lazyUpTo (stop : Char) : List Char → Option (List Char × List Char)
  | [] => none
  | c :: cs =>
    if c = stop then some ([], cs)
    else if c = '\n' then none
    else
      match lazyUpTo stop cs with
      | some (g, r) => some (c :: g, r)
      | none => none

/-- One `re.sub` pass.  The scanner walks the text left to right carrying
whether the previous character was a word character (for `\b`).  At each
position the matcher is attempted; on success it yields the replacement text,
the wordness of the last consumed character and the rest of the input, and
scanning resumes there (Python's non-overlapping leftmost semantics).  Fuel
bounds the recursion; callers pass the input length, which suffices because
every matcher embedded here consumes at least one character. -/
def reSubF (tryM : Bool → List Char → Option (List Char × Bool × List Char)) :
    Nat → Bool → List Char → List Char
  | 0, _, l => l
  | _ + 1, _, [] => []
  | fuel + 1, prev, c :: cs =>
    match tryM prev (c :: cs) with
    | some (rep, pw, rest) => rep ++ reSubF tryM fuel pw rest
    | none => c :: reSubF tryM fuel (isWordCh c) cs

/-- Entry point for one substitution pass over a whole line (start of text
counts as a non-word position for `\b`). -/
def reSub (tryM : Bool → List Char → Option (List Char × Bool × List Char))
    (l : List Char) : List Char :=
  reSubF tryM l.length false l

/-- `re.search`: return the leftmost position's match data, scanning with the
same word-boundary state as `reSubF`. -/
def reFind {α : Type} (tryM : Bool → List Char → Option α) :
    Bool → List Char → Option α
  | _, [] => none
  | prev, c :: cs =>
    match tryM prev (c :: cs) with
    | some a => some a
    | none => reFind tryM (isWordCh c) cs

/-- `re.findall`: collect every non-overlapping match's payload left to
right. -/
def reFindAllF {α : Type} (tryM : Bool → List Char → Option (α × Bool × List Char)) :
    Nat → Bool → List Char → List α
  | 0, _, _ => []
  | _ + 1, _, [] => []
  | fuel + 1, prev, c :: cs =>
    match tryM prev (c :: cs) with
    | some (a, pw, rest) => a :: reFindAllF tryM fuel pw rest
    | none => reFindAllF tryM fuel (isWordCh c) cs

/-- Python `repr` of a string: single quotes by default, double quotes when
the text contains a single quote but no double quote; the chosen quote and
backslashes are escaped (the only escapes the rewriter's inputs can need). -/
def pyReprChars (l : List Char) : List Char :=
  let q : Char := if l.contains '\x27' && !(l.contains '"') then '"' else '\x27'
  q :: (l.foldr (fun c acc =>
    if c = '\\' then '\\' :: '\\' :: acc
    else if c = q then '\\' :: c :: acc
    else c :: acc) [q])

/-- Decimal digit character for a value below ten. -/
def digitCh (d : Nat) : Char := Char.ofNat (48 + d)

/-- Decimal digits of a positive number, most significant first, in front of
`acc`; the fuel (passed as the number itself) dominates the digit count. -/
def natToCharsGo : Nat → Nat → List Char → List Char
  | 0, _, acc => acc
  | _ + 1, 0, acc => acc
  | fuel + 1, n, acc => natToCharsGo fuel (n / 10) (digitCh (n % 10) :: acc)

/-- Python `str` of a non-negative integer. -/
def natToChars (n : Nat) : List Char :=
  if n = 0 then ['0'] else natToCharsGo n n []

/-- Python `int` on a string of decimal digits. -/
def parseDigits (l : List Char) : Nat :=
  l.foldl (fun a c => 10 * a + (c.toNat - 48)) 0

/-! ### Identifier normalizer -/

/-- First step of `to_snake_case` (src/R2Python.py:48): the substitution
`re.sub("[.-]", "_", name)`. -/
def sepToUnderscore (l : List Char) : List Char :=
  l.map fun c => if c = '.' || c = '-' then '_' else c

/-- Second step of `to_snake_case` (src/R2Python.py:50): the substitution
inserting `_` between `[a-z0-9]` and `[A-Z]`.  A match consumes both
characters; since the second is upper case it can never start the next match,
so resuming after it is exactly the regex's non-overlapping scan. -/
def camelGo : List Char → List Char
  | a :: b :: rest =>
    if isLowDig a && isUpperCh b then a :: '_' :: b :: camelGo rest
    else a :: camelGo (b :: rest)
  | l => l

/-- Third step of `to_snake_case` (src/R2Python.py:52): the substitution
`re.sub("__+", "_")`.  Replacing every run of two or more underscores by one
is the same as emitting a single underscore per maximal run, which is what
this state scanner does (the flag records being inside a run). -/
def collapseGo : Bool → List Char → List Char
  | _, [] => []
  | prev, c :: cs =>
    if c = '_' then
      (if prev then collapseGo true cs else c :: collapseGo true cs)
    else c :: collapseGo false cs

/-- Embeds `to_snake_case` (src/R2Python.py:43-53): separator replacement,
camel-case splitting, underscore collapsing, then `str.lower`.  (The `None`
guard of the source is vacuous here: strings are never `None`.) -/
def to_snake_case (s : String) : String :=
  ⟨(collapseGo false (camelGo (sepToUnderscore s.data))).map toLowerCh⟩

/-! ### Numeric sequence rewriting -/

/-- Matcher for `\b(\d+)\s*:\s*(\d+)\b` with replacement
`range({g1}, {int(g2)+1})`  (src/R2Python.py:69-70).  The greedy digit groups
cannot usefully backtrack (shrinking one leaves a digit where a non-digit is
required), so the matcher takes maximal digit runs and then checks the
trailing word boundary. -/
def tryRangeColon (prev : Bool) (cs : List Char) :
    Option (List Char × Bool × List Char) :=
  if prev then none
  else
    let g1 := cs.takeWhile isDigitCh
    if g1 = [] then none
    else
      match (cs.dropWhile isDigitCh).dropWhile isSpaceCh with
      | ':' :: r2 =>
        let r3 := r2.dropWhile isSpaceCh
        let g2 := r3.takeWhile isDigitCh
        if g2 = [] then none
        else
          let rest := r3.dropWhile isDigitCh
          let rep := "range(".data ++ g1 ++ ", ".data ++
            natToChars (parseDigits g2 + 1) ++ [')']
          match rest with
          | [] => some (rep, true, [])
          | d :: _ => if isWordCh d then none else some (rep, true, rest)
      | _ => none

/-- Matcher for `\bseq\(\s*(\d+)\s*,\s*(\d+)\s*(?:,\s*(\d+)\s*)?\)` with
replacement `range({a}, {int(b)+1}{, c})` (src/R2Python.py:72-76).  After the
second group, a following comma commits to the optional step group (falling
back to a bare `)` is impossible, since the spaces cannot absorb the comma). -/
def trySeqCall (prev : Bool) (cs : List Char) :
    Option (List Char × Bool × List Char) :=
  if prev then none
  else
    match matchLit "seq(".data cs with
    | none => none
    | some r0 =>
      let r1 := r0.dropWhile isSpaceCh
      let g1 := r1.takeWhile isDigitCh
      if g1 = [] then none
      else
        match (r1.dropWhile isDigitCh).dropWhile isSpaceCh with
        | ',' :: r3 =>
          let r4 := r3.dropWhile isSpaceCh
          let g2 := r4.takeWhile isDigitCh
          if g2 = [] then none
          else
            let rep0 := "range(".data ++ g1 ++ ", ".data ++
              natToChars (parseDigits g2 + 1)
            match (r4.dropWhile isDigitCh).dropWhile isSpaceCh with
            | ')' :: r6 => some (rep0 ++ [')'], false, r6)
            | ',' :: r7 =>
              let r8 := r7.dropWhile isSpaceCh
              let g3 := r8.takeWhile isDigitCh
              if g3 = [] then none
              else
                match (r8.dropWhile isDigitCh).dropWhile isSpaceCh with
                | ')' :: r10 =>
                  some (rep0 ++ ", ".data ++ g3 ++ [')'], false, r10)
                | _ => none
            | _ => none
        | _ => none

/-- Embeds `convert_seq_notation` (src/R2Python.py:66-77): the `a:b` range
rewrite pass followed by the `seq(...)` call rewrite pass. -/
def convert_seq_ranges (s : String) : String :=
  ⟨reSub trySeqCall (reSub tryRangeColon s.data)⟩

/-! ### Shared matcher pieces

The handlers below embed the regex passes of src/R2Python.py.  Every line the
converter feeds them is newline-free (`transform_line` strips the trailing
newline and the only newline injection happens in the last pass), so the
embeddings may and do assume their input holds no newline where the
distinction would matter (noted per definition). -/

/-- The dotted tail `(?:\.\w+)*` of the member-access pattern: greedily
consume groups of a dot followed by a nonempty word run.  Fuel bounds the
recursion (callers pass the input length). -/
def dotWordTail : Nat → List Char → (List Char × List Char)
  | 0, l => ([], l)
  | fuel + 1, l =>
    match l with
    | '.' :: r =>
      let w := r.takeWhile isWordCh
      if w = [] then ([], l)
      else
        let (t, rest) := dotWordTail fuel (r.dropWhile isWordCh)
        ('.' :: w ++ t, rest)
    | _ => ([], l)

/-- Groups of `(\w+)\$(\w+(?:\.\w+)*)` (src/R2Python.py:136, 161, 260) at one
position: the maximal word run before `$` (a shorter greedy group would have
to be followed by `$` inside a word run, impossible) and the dotted word
sequence after it.  Returns ((object, field), last-char wordness, rest). -/
def tryDollarG (cs : List Char) :
    Option ((List Char × List Char) × Bool × List Char) :=
  let g1 := cs.takeWhile isWordCh
  if g1 = [] then none
  else
    match cs.dropWhile isWordCh with
    | '$' :: r =>
      let w := r.takeWhile isWordCh
      if w = [] then none
      else
        let (t, rest) := dotWordTail r.length (r.dropWhile isWordCh)
        some ((g1, w ++ t), true, rest)
    | _ => none

/-- Embeds `snake_dotted_identifier` (src/R2Python.py:56-59): builds
`df["col_snake"]` from the two member-access groups. -/
def snake_dotted_identifier (df col : List Char) : List Char :=
  df ++ '[' :: '"' :: (to_snake_case ⟨col⟩).data ++ ['"', ']']

/-- The member-access substitution used by `handle_df_access` and
`normalize_mask_operators`. -/
def tryDollarRepl (_ : Bool) (cs : List Char) :
    Option (List Char × Bool × List Char) :=
  match tryDollarG cs with
  | some ((df, col), pw, rest) => some (snake_dotted_identifier df col, pw, rest)
  | none => none

/-- Matcher for `\s*<-\s*` (resp. `\s*->\s*`) → `" = "`
(src/R2Python.py:154-155): the space runs around the two-character arrow are
absorbed into the match. -/
def tryArrow (arrow : List Char) (_ : Bool) (cs : List Char) :
    Option (List Char × Bool × List Char) :=
  match matchLit arrow (cs.dropWhile isSpaceCh) with
  | some r => some (" = ".data, false, r.dropWhile isSpaceCh)
  | none => none

/-- Embeds `handle_assignments` (src/R2Python.py:152-156). -/
def handle_assignments (line : String) : String :=
  ⟨reSub (tryArrow ['-', '>']) (reSub (tryArrow ['<', '-']) line.data)⟩

/-- Embeds `handle_df_access` (src/R2Python.py:159-161). -/
def handle_df_access (line : String) : String :=
  ⟨reSub tryDollarRepl line.data⟩

/-! ### The balanced-argument splitter and `c(...)` rewriting -/

/-- The top-level comma split loop of `parse_c_vector`
(src/R2Python.py:85-100): parenthesis depth is tracked as an integer (it can
go negative — there is no balance check), a comma at depth zero ends the
current part, and the trailing buffer is appended only when nonempty.  Every
emitted part is stripped.  The buffer is accumulated in reverse. -/
def splitTopGo : Int → List Char → List Char → List String
  | _, buf, [] => if buf = [] then [] else [⟨pyStrip buf.reverse⟩]
  | depth, buf, c :: cs =>
    if c = '(' then splitTopGo (depth + 1) (c :: buf) cs
    else if c = ')' then splitTopGo (depth - 1) (c :: buf) cs
    else if c = ',' ∧ depth = 0 then ⟨pyStrip buf.reverse⟩ :: splitTopGo depth [] cs
    else splitTopGo depth (c :: buf) cs

/-- The Balanced-Argument Splitter: the top-level comma split of
`parse_c_vector` (src/R2Python.py:85-100). -/
def splitTopLevel (expr : String) : List String := splitTopGo 0 [] expr.data

/-- Python `', '.join`. -/
def joinComma : List (List Char) → List Char
  | [] => []
  | [x] => x
  | x :: y :: rest => x ++ ", ".data ++ joinComma (y :: rest)

/-- The `names\(([^)]+)\)` fullmatch test of `parse_c_vector`
(src/R2Python.py:105): the part must be exactly `names(`, one or more
non-`)` characters, and a final `)`. -/
def namesFullmatch (p : List Char) : Option (List Char) :=
  match matchLit "names(".data p with
  | none => none
  | some r =>
    let inner := r.takeWhile (· ≠ ')')
    if inner = [] then none
    else
      match r.dropWhile (· ≠ ')') with
      | [')'] => some inner
      | _ => none

/-- The quoted-string fullmatch `(['\"]).*?\1` (src/R2Python.py:111 and 250):
first and last characters are the same quote, length at least two, and no
newline between them (`.` does not match a newline). -/
def quotedFullmatch (p : List Char) : Bool :=
  match p with
  | q :: c2 :: rest =>
    (q = '\x27' || q = '"') &&
      ((c2 :: rest).getLast? = some q) &&
      !((c2 :: rest).dropLast.contains '\n')
  | _ => false

/-- Embeds `parse_c_vector` (src/R2Python.py:80-117): split at top-level
commas, then render each part — a `names(df)` part becomes a spread of the
column list, a quoted part the repr of its snake-cased body, anything else is
snake-cased bare — joined as a Python list literal. -/
def parse_c_vector (expr : String) : String :=
  let py := (splitTopLevel expr).map fun p =>
    match namesFullmatch p.data with
    | some inner => '*' :: (pyStrip inner ++ ".columns.tolist()".data)
    | none =>
      if quotedFullmatch p.data then
        pyReprChars (to_snake_case ⟨(p.data.drop 1).dropLast⟩).data
      else (to_snake_case p).data
  ⟨'[' :: (joinComma py ++ [']'])⟩

/-- Matcher for `c\(([^()]*)\)` (src/R2Python.py:166): no word boundary
before `c`; the group is the (possibly empty) paren-free text, and the next
parenthesis must be the closing one. -/
def tryCVec (_ : Bool) (cs : List Char) : Option (List Char × Bool × List Char) :=
  match cs with
  | 'c' :: '(' :: r =>
    let g := r.takeWhile fun c => c ≠ '(' && c ≠ ')'
    match r.dropWhile (fun c => c ≠ '(' && c ≠ ')') with
    | ')' :: rest => some ((parse_c_vector ⟨g⟩).data, false, rest)
    | _ => none
  | _ => none

/-- Embeds `handle_vector_and_seq` (src/R2Python.py:164-168): the `c(...)`
literal rewrite followed by the numeric sequence rewrites. -/
def handle_vector_and_seq (line : String) : String :=
  convert_seq_ranges ⟨reSub tryCVec line.data⟩

/-! ### Simple call rewrites -/

/-- Matcher for `\b<name>\((.*?)\)` patterns: a word boundary, the literal
name, `(`, then the lazy group up to the first `)`. -/
def tryNameCall (name : List Char) (build : List Char → List Char)
    (prev : Bool) (cs : List Char) : Option (List Char × Bool × List Char) :=
  if prev then none
  else
    match matchLit (name ++ ['(']) cs with
    | none => none
    | some r =>
      match lazyUpTo ')' r with
      | some (g, rest) => some (build g, false, rest)
      | none => none

/-- Embeds `handle_unique_rbind_cbind` (src/R2Python.py:171-175). -/
def handle_unique_rbind_cbind (line : String) : String :=
  let l1 := reSub (tryNameCall "unique".data fun g => g ++ ".unique()".data)
    line.data
  let l2 := reSub (tryNameCall "rbind".data fun g =>
    "pd.concat([".data ++ g ++ "], axis=0)".data) l1
  ⟨reSub (tryNameCall "cbind".data fun g =>
    "pd.concat([".data ++ g ++ "], axis=1)".data) l2⟩

/-- Replace every (leftmost, non-overlapping) occurrence of `pat` by `rep`:
models `re.sub(re.escape(pat), rep, s)` for nonempty `pat` and a replacement
free of backslashes (as in the source). -/
def replaceAllF (pat rep : List Char) : Nat → List Char → List Char
  | 0, l => l
  | _ + 1, [] => []
  | fuel + 1, c :: cs =>
    match matchLit pat (c :: cs) with
    | some r => rep ++ replaceAllF pat rep fuel r
    | none => c :: replaceAllF pat rep fuel cs

/-- The greedy tail `.*\]` of `(\[.*\])` (src/R2Python.py:182): everything up
to the last `]` before any newline.  Returns (text before that `]`, rest
after it). -/
def greedyToLastRB (l : List Char) : Option (List Char × List Char) :=
  let seg := l.takeWhile (· ≠ '\n')
  let restNl := l.dropWhile (· ≠ '\n')
  match seg.reverse.dropWhile (· ≠ ']') with
  | ']' :: revMid =>
    some (revMid.reverse, (seg.reverse.takeWhile (· ≠ ']')).reverse ++ restNl)
  | _ => none

/-- Search groups for `(\w+)\.columns\.tolist\(\)\s*=\s*(\[.*\])`
(src/R2Python.py:182): returns (whole match, object, bracketed list). -/
def tryColsAssign (_ : Bool) (cs : List Char) :
    Option (List Char × List Char × List Char) :=
  let g1 := cs.takeWhile isWordCh
  if g1 = [] then none
  else
    match matchLit ".columns.tolist()".data (cs.dropWhile isWordCh) with
    | none => none
    | some r1 =>
      let sp1 := r1.takeWhile isSpaceCh
      match r1.dropWhile isSpaceCh with
      | '=' :: r3 =>
        let sp2 := r3.takeWhile isSpaceCh
        match r3.dropWhile isSpaceCh with
        | '[' :: r5 =>
          match greedyToLastRB r5 with
          | some (mid, _) =>
            let arr := '[' :: (mid ++ [']'])
            some (g1 ++ ".columns.tolist()".data ++ sp1 ++ '=' :: (sp2 ++ arr),
              g1, arr)
          | none => none
        | _ => none
      | _ => none

/-- Embeds `handle_names_and_rename` (src/R2Python.py:178-186): rewrite
`names(df)` to `df.columns.tolist()`, then turn a resulting
`df.columns.tolist() = [...]` assignment into `df.columns = [...]` by
replacing the matched text. -/
def handle_names_and_rename (line : String) : String :=
  let l1 := reSub (tryNameCall "names".data fun g => g ++ ".columns.tolist()".data)
    line.data
  match reFind tryColsAssign false l1 with
  | some (g0, df, arr) =>
    ⟨replaceAllF g0 (df ++ ".columns = ".data ++ arr) l1.length l1⟩
  | none => ⟨l1⟩

/-! ### Backtracking lazy groups for multi-argument calls -/

/-- `(.*?)c1(.*?)c2` backtracking: the first group extends past successive
`c1` occurrences until the rest accommodates `(.*?)c2`. -/
def lazyPairUpTo (c1 c2 : Char) : Nat → List Char →
    Option (List Char × List Char × List Char)
  | 0, _ => none
  | fuel + 1, l =>
    match lazyUpTo c1 l with
    | none => none
    | some (g1, r1) =>
      match lazyUpTo c2 r1 with
      | some (g2, rest) => some (g1, g2, rest)
      | none =>
        match lazyPairUpTo c1 c2 fuel r1 with
        | some (g1', g2, rest) => some (g1 ++ c1 :: g1', g2, rest)
        | none => none

/-- `(.*?),(.*?),(.*?)\)` backtracking for the three-argument `gsub`. -/
def lazyTripleUpTo : Nat → List Char →
    Option (List Char × List Char × List Char × List Char)
  | 0, _ => none
  | fuel + 1, l =>
    match lazyUpTo ',' l with
    | none => none
    | some (g1, r1) =>
      match lazyPairUpTo ',' ')' r1.length r1 with
      | some (g2, g3, rest) => some (g1, g2, g3, rest)
      | none =>
        match lazyTripleUpTo fuel r1 with
        | some (g1', g2, g3, rest) => some (g1 ++ ',' :: g1', g2, g3, rest)
        | none => none

/-- Matcher for `list\.files\(\s*pattern\s*=\s*(['\"][^'\"]+['\"])\s*\)`
(src/R2Python.py:191); the closing quote comes from a character class and
need not equal the opening one. -/
def tryListFiles (_ : Bool) (cs : List Char) :
    Option (List Char × Bool × List Char) :=
  match matchLit "list.files(".data cs with
  | none => none
  | some r =>
    match matchLit "pattern".data (r.dropWhile isSpaceCh) with
    | none => none
    | some r2 =>
      match r2.dropWhile isSpaceCh with
      | '=' :: r4 =>
        match r4.dropWhile isSpaceCh with
        | q :: r6 =>
          if q = '\x27' || q = '"' then
            let body := r6.takeWhile fun c => c ≠ '\x27' && c ≠ '"'
            if body = [] then none
            else
              match r6.dropWhile (fun c => c ≠ '\x27' && c ≠ '"') with
              | q2 :: r7 =>
                match r7.dropWhile isSpaceCh with
                | ')' :: r9 =>
                  some ("glob.glob(".data ++ q :: (body ++ [q2, ')']), false, r9)
                | _ => none
              | _ => none
          else none
        | _ => none
      | _ => none

/-- Matcher for the two-lazy-group calls `\b(grep|grepl)\((.*?),(.*?)\)`
(src/R2Python.py:193-195). -/
def tryTwoArgCall (name : List Char) (build : List Char → List Char → List Char)
    (prev : Bool) (cs : List Char) : Option (List Char × Bool × List Char) :=
  if prev then none
  else
    match matchLit (name ++ ['(']) cs with
    | none => none
    | some r =>
      match lazyPairUpTo ',' ')' r.length r with
      | some (g1, g2, rest) => some (build g1 g2, false, rest)
      | none => none

/-- Matcher for `\bgsub\((.*?),(.*?),(.*?)\)` (src/R2Python.py:197). -/
def tryGsub (prev : Bool) (cs : List Char) :
    Option (List Char × Bool × List Char) :=
  if prev then none
  else
    match matchLit "gsub(".data cs with
    | none => none
    | some r =>
      match lazyTripleUpTo r.length r with
      | some (g1, g2, g3, rest) =>
        some ("re.sub(".data ++ g1 ++ ", ".data ++ g2 ++ ", ".data ++ g3 ++
          [')'], false, rest)
      | none => none

/-- Embeds `handle_listfiles_and_grep` (src/R2Python.py:189-198). -/
def handle_listfiles_and_grep (line : String) : String :=
  let l1 := reSub tryListFiles line.data
  let l2 := reSub (tryTwoArgCall "grep".data fun g1 g2 =>
    "[x for x in ".data ++ g2 ++ " if re.search(".data ++ g1 ++ ", x)]".data) l1
  let l3 := reSub (tryTwoArgCall "grepl".data fun g1 g2 =>
    g2 ++ ".str.contains(".data ++ g1 ++ ", regex=True)".data) l2
  ⟨reSub tryGsub l3⟩

/-! ### read/write csv and dates -/

/-- Search for `write\.csv\(\s*(\w+)\s*,\s*(['\"][^'\"]+['\"])\s*(?:,\s*`
`row\.names\s*=\s*(TRUE|FALSE))?\s*\)` with `re.I` (src/R2Python.py:204):
returns (frame, quoted path, whether the optional flag matched as FALSE). -/
def tryWriteCsv (_ : Bool) (cs : List Char) :
    Option (List Char × List Char × Bool) :=
  match matchLitCI "write.csv(".data cs with
  | none => none
  | some r =>
    let r1 := r.dropWhile isSpaceCh
    let df := r1.takeWhile isWordCh
    if df = [] then none
    else
      match (r1.dropWhile isWordCh).dropWhile isSpaceCh with
      | ',' :: r3 =>
        match r3.dropWhile isSpaceCh with
        | q :: r5 =>
          if q = '\x27' || q = '"' then
            let body := r5.takeWhile fun c => c ≠ '\x27' && c ≠ '"'
            if body = [] then none
            else
              match r5.dropWhile (fun c => c ≠ '\x27' && c ≠ '"') with
              | q2 :: r6 =>
                let path := q :: (body ++ [q2])
                match r6.dropWhile isSpaceCh with
                | ')' :: _ => some (df, path, false)
                | ',' :: r8 =>
                  match matchLitCI "row.names".data (r8.dropWhile isSpaceCh) with
                  | none => none
                  | some r10 =>
                    match r10.dropWhile isSpaceCh with
                    | '=' :: r12 =>
                      let r13 := r12.dropWhile isSpaceCh
                      match matchLitCI "TRUE".data r13 with
                      | some r14 =>
                        match r14.dropWhile isSpaceCh with
                        | ')' :: _ => some (df, path, false)
                        | _ => none
                      | none =>
                        match matchLitCI "FALSE".data r13 with
                        | some r14 =>
                          match r14.dropWhile isSpaceCh with
                          | ')' :: _ => some (df, path, true)
                          | _ => none
                        | none => none
                    | _ => none
                | _ => none
              | _ => none
          else none
        | _ => none
      | _ => none

/-- Embeds `handle_read_write_csv` (src/R2Python.py:201-209): rewrite
`read.csv`, and when the `write.csv` search matches, the whole line is
replaced by the `to_csv` call. -/
def handle_read_write_csv (line : String) : String :=
  let l1 := reSub (tryNameCall "read.csv".data fun g =>
    "pd.read_csv(".data ++ g ++ [')']) line.data
  match reFind tryWriteCsv false l1 with
  | some (df, path, rnFalse) =>
    ⟨df ++ ".to_csv(".data ++ path ++ ", index=".data ++
      (if rnFalse then "False".data else "True".data) ++ [')']⟩
  | none => ⟨l1⟩

/-- Matcher for `\bSys\.Date\(\)\b` / `\bSys\.time\(\)\b`
(src/R2Python.py:213-214).  The trailing `\b` after `)` needs a word
character next, so the pattern cannot match at end of line or before a
non-word character. -/
def trySysCall (name rep : List Char) (prev : Bool) (cs : List Char) :
    Option (List Char × Bool × List Char) :=
  if prev then none
  else
    match matchLit name cs with
    | none => none
    | some rest =>
      match rest with
      | d :: _ => if isWordCh d then some (rep, false, rest) else none
      | [] => none

/-- Matcher for `dt\.date\.today\(\)\s*-[^\S\r\n]*(\d+)`
(src/R2Python.py:216); `[^\S\r\n]` is whitespace other than CR/LF. -/
def tryDateArith (_ : Bool) (cs : List Char) :
    Option (List Char × Bool × List Char) :=
  match matchLit "dt.date.today()".data cs with
  | none => none
  | some r =>
    match r.dropWhile isSpaceCh with
    | '-' :: r2 =>
      let r3 := r2.dropWhile fun c => c = ' ' || c = '\t' || c = '\x0b' || c = '\x0c'
      let g := r3.takeWhile isDigitCh
      if g = [] then none
      else
        some ("dt.date.today() - dt.timedelta(days=".data ++ g ++ [')'], true,
          r3.dropWhile isDigitCh)
    | _ => none

/-- Embeds `handle_dates` (src/R2Python.py:212-217). -/
def handle_dates (line : String) : String :=
  let l1 := reSub (trySysCall "Sys.Date()".data "dt.date.today()".data) line.data
  let l2 := reSub (trySysCall "Sys.time()".data "dt.datetime.now()".data) l1
  ⟨reSub tryDateArith l2⟩

/-! ### Mask-operator normalization -/

/-- Matcher for `\b&&\b` → `&` (src/R2Python.py:127).  Since `&` is not a
word character, the leading boundary demands a word character before and the
trailing one a word character after: a spaced `&&` does not match. -/
def tryAmpAmp (prev : Bool) (cs : List Char) :
    Option (List Char × Bool × List Char) :=
  if !prev then none
  else
    match cs with
    | '&' :: '&' :: d :: rest =>
      if isWordCh d then some (['&'], false, d :: rest) else none
    | _ => none

/-- Matcher for `\b\|\|\b` → `|` (src/R2Python.py:128), same boundary
behaviour as `tryAmpAmp`. -/
def tryBarBar (prev : Bool) (cs : List Char) :
    Option (List Char × Bool × List Char) :=
  if !prev then none
  else
    match cs with
    | '|' :: '|' :: d :: rest =>
      if isWordCh d then some (['|'], false, d :: rest) else none
    | _ => none

/-- Matcher for `!\s*is\.na\((.*?)\)` → `\1.notna()`
(src/R2Python.py:130). -/
def tryNotIsNa (_ : Bool) (cs : List Char) :
    Option (List Char × Bool × List Char) :=
  match cs with
  | '!' :: r =>
    match matchLit "is.na(".data (r.dropWhile isSpaceCh) with
    | none => none
    | some r1 =>
      match lazyUpTo ')' r1 with
      | some (g, rest) => some (g ++ ".notna()".data, false, rest)
      | none => none
  | _ => none

/-- Matcher for `is\.na\((.*?)\)` → `\1.isna()` (src/R2Python.py:131); no
word boundary before `is`. -/
def tryIsNa (_ : Bool) (cs : List Char) :
    Option (List Char × Bool × List Char) :=
  match matchLit "is.na(".data cs with
  | none => none
  | some r =>
    match lazyUpTo ')' r with
    | some (g, rest) => some (g ++ ".isna()".data, false, rest)
    | none => none

/-- Matcher for `!\s*\(` → `~(` (src/R2Python.py:132). -/
def tryNotParen (_ : Bool) (cs : List Char) :
    Option (List Char × Bool × List Char) :=
  match cs with
  | '!' :: r =>
    match r.dropWhile isSpaceCh with
    | '(' :: rest => some ("~(".data, false, rest)
    | _ => none
  | _ => none

/-- Matcher for `!\s*(\w+)` → `~\1` (src/R2Python.py:133). -/
def tryNotWord (_ : Bool) (cs : List Char) :
    Option (List Char × Bool × List Char) :=
  match cs with
  | '!' :: r =>
    let r1 := r.dropWhile isSpaceCh
    let g := r1.takeWhile isWordCh
    if g = [] then none
    else some ('~' :: g, true, r1.dropWhile isWordCh)
  | _ => none

/-- The right-hand-side alternation `(\[[^\]]*\]|\([^\)]*\)|\w+)` of the
membership patterns (src/R2Python.py:143-144), together with the following
`\s*` handled by the caller.  Returns (matched text, last-char wordness,
rest). -/
def inRhs (r : List Char) : Option (List Char × Bool × List Char) :=
  match r with
  | '[' :: r3 =>
    let body := r3.takeWhile (· ≠ ']')
    match r3.dropWhile (· ≠ ']') with
    | ']' :: rest => some ('[' :: (body ++ [']']), false, rest)
    | _ => none
  | '(' :: r3 =>
    let body := r3.takeWhile (· ≠ ')')
    match r3.dropWhile (· ≠ ')') with
    | ')' :: rest => some ('(' :: (body ++ [')']), false, rest)
    | _ => none
  | _ =>
    let w := r.takeWhile isWordCh
    if w = [] then none else some (w, true, r.dropWhile isWordCh)

/-- After a candidate left side, parse `\s*%in%\s*` (or `%ni%`) and the
right side. -/
def inSuffix (key : List Char) (r : List Char) :
    Option (List Char × Bool × List Char) :=
  match matchLit key (r.dropWhile isSpaceCh) with
  | none => none
  | some r1 => inRhs (r1.dropWhile isSpaceCh)

/-- The lazy left side `(\S+?)` of the membership patterns: grow one
non-space character at a time, testing the suffix after each growth; a space
ends all candidates (the accumulator is kept reversed). -/
def tryInGo (key : List Char) : Nat → List Char → List Char →
    Option (List Char × List Char × Bool × List Char)
  | 0, _, _ => none
  | fuel + 1, acc, cs =>
    match cs with
    | [] => none
    | c :: rest =>
      if isSpaceCh c then none
      else
        match inSuffix key rest with
        | some (rhs, pw, r) => some ((c :: acc).reverse, rhs, pw, r)
        | none => tryInGo key fuel (c :: acc) rest

/-- Matcher for `(\S+?)\s*%in%\s*(...)` and its `%ni%` negation
(src/R2Python.py:137-144); both sides are stripped in the replacement. -/
def tryInOp (key : List Char) (neg : Bool) (_ : Bool) (cs : List Char) :
    Option (List Char × Bool × List Char) :=
  match tryInGo key cs.length [] cs with
  | some (lhs, rhs, pw, rest) =>
    some ((if neg then ['~'] else []) ++ pyStrip lhs ++ ".isin(".data ++
      pyStrip rhs ++ [')'], pw, rest)
  | none => none

/-- Embeds `normalize_mask_operators` (src/R2Python.py:124-145): the nine
substitution passes in source order. -/
def normalize_mask_operators (s : String) : String :=
  let l1 := reSub tryAmpAmp s.data
  let l2 := reSub tryBarBar l1
  let l3 := reSub tryNotIsNa l2
  let l4 := reSub tryIsNa l3
  let l5 := reSub tryNotParen l4
  let l6 := reSub tryNotWord l5
  let l7 := reSub tryDollarRepl l6
  let l8 := reSub (tryInOp "%in%".data false) l7
  ⟨reSub (tryInOp "%ni%".data true) l8⟩

/-! ### Subset and bracket selection -/

/-- Search groups for `\bsubset\(([^,]+),\s*(.*)\)$` (src/R2Python.py:222):
group 1 is the nonempty non-comma run after `subset(` (a comma must follow),
group 2 runs to the line's final character, which must be `)`.  The line is
newline-free. -/
def trySubset (prev : Bool) (cs : List Char) :
    Option (List Char × List Char) :=
  if prev then none
  else
    match matchLit "subset(".data cs with
    | none => none
    | some r =>
      let g1 := r.takeWhile (· ≠ ',')
      if g1 = [] then none
      else
        match r.dropWhile (· ≠ ',') with
        | ',' :: r1 =>
          let r2 := r1.dropWhile isSpaceCh
          if r2.contains '\n' then none
          else
            match r2.getLast? with
            | some ')' => some (g1, r2.dropLast)
            | _ => none
        | _ => none

/-- Embeds `handle_subset` (src/R2Python.py:220-227): on a match the whole
line is replaced by `df[(cond)]` with the condition mask-normalized. -/
def handle_subset (line : String) : String :=
  match reFind trySubset false line.data with
  | some (df, cond) =>
    ⟨pyStrip df ++ "[(".data ++
      (normalize_mask_operators ⟨pyStrip cond⟩).data ++ ")]".data⟩
  | none => line

/-- A lazy group followed by `\s*` and a literal stop character
(`(.*?)\s*stop`): text before the first `stop`, with the trailing whitespace
run absorbed by the `\s*`.  The lines in play are newline-free. -/
def lazyGroupBefore (stop : Char) (l : List Char) :
    Option (List Char × List Char) :=
  match lazyUpTo stop l with
  | none => none
  | some (pre, rest) => some (pyRstrip pre, rest)

/-- The anchored rewrite `re.sub(r"^c\((.*)\)$", parse_c_vector, cols)`
(src/R2Python.py:245): the whole text must be `c(`, anything, `)`. -/
def cFullRewrite (cols : List Char) : List Char :=
  match cols with
  | 'c' :: '(' :: r =>
    if cols.contains '\n' then cols
    else
      match r.getLast? with
      | some ')' => (parse_c_vector ⟨r.dropLast⟩).data
      | _ => cols
  | _ => cols

/-- Matcher for `(['\"])\s*([\w\.]+)\s*\1` → `repr(to_snake_case(g2))`
(src/R2Python.py:247): the closing quote must equal the opening one. -/
def tryQuotedItem (_ : Bool) (cs : List Char) :
    Option (List Char × Bool × List Char) :=
  match cs with
  | q :: r =>
    if q = '\x27' || q = '"' then
      let r1 := r.dropWhile isSpaceCh
      let w := r1.takeWhile fun c => isWordCh c || c = '.'
      if w = [] then none
      else
        match (r1.dropWhile fun c => isWordCh c || c = '.').dropWhile isSpaceCh with
        | q2 :: rest =>
          if q2 = q then
            some (pyReprChars (to_snake_case ⟨w⟩).data, false, rest)
          else none
        | _ => none
    else none
  | _ => none

/-- Embeds the `_repl` body of `handle_square_bracket_subsets`
(src/R2Python.py:235-253). -/
def bracketRepl (df rows cols : List Char) : List Char :=
  let py1 :=
    if rows = [] then df
    else df ++ '[' :: ((normalize_mask_operators ⟨rows⟩).data ++ [']'])
  if cols = [] ∨ cols = [']'] ∨ cols = "NULL".data then py1
  else
    let cols1 := cFullRewrite cols
    let cols2 := reSub tryQuotedItem cols1
    let cols3 :=
      if cols2.head? = some '[' then cols2
      else if quotedFullmatch cols2 then '[' :: (cols2 ++ [']']) else cols2
    py1 ++ '[' :: (cols3 ++ [']'])

/-- Matcher for `(\w+)\s*\[\s*(.*?)\s*\,\s*(.*?)\s*\]`
(src/R2Python.py:234), replaced through `_repl`. -/
def tryBracketSel (_ : Bool) (cs : List Char) :
    Option (List Char × Bool × List Char) :=
  let df := cs.takeWhile isWordCh
  if df = [] then none
  else
    match (cs.dropWhile isWordCh).dropWhile isSpaceCh with
    | '[' :: r2 =>
      match lazyGroupBefore ',' (r2.dropWhile isSpaceCh) with
      | none => none
      | some (rows, r3) =>
        match lazyGroupBefore ']' (r3.dropWhile isSpaceCh) with
        | none => none
        | some (cols, rest) => some (bracketRepl df rows cols, false, rest)
    | _ => none

/-- Embeds `handle_square_bracket_subsets` (src/R2Python.py:230-254). -/
def handle_square_bracket_subsets (line : String) : String :=
  ⟨reSub tryBracketSel line.data⟩

/-! ### Chained NULL drops -/

/-- Search for `=\s*NULL\b` (src/R2Python.py:259). -/
def hasNullAssign (l : List Char) : Bool :=
  (reFind (fun _ cs =>
    match cs with
    | '=' :: r =>
      match matchLit "NULL".data (r.dropWhile isSpaceCh) with
      | some rest =>
        match rest with
        | [] => some ()
        | d :: _ => if isWordCh d then none else some ()
      | none => none
    | _ => none) false l).isSome

/-- Embeds `handle_chained_null_drops` (src/R2Python.py:257-265): when the
line assigns `NULL`, every `(\w+)\$(...)` member access found on the line
contributes a snake-cased column, and the whole line becomes one bulk
`drop(columns=[...], inplace=True)` on the first match's object. -/
def handle_chained_null_drops (line : String) : String :=
  if hasNullAssign line.data then
    match reFindAllF (fun _ cs => tryDollarG cs) line.data.length false
      line.data with
    | [] => line
    | (df, col0) :: more =>
      ⟨df ++ ".drop(columns=[".data ++
        joinComma (((df, col0) :: more).map fun p =>
          pyReprChars (to_snake_case ⟨p.2⟩).data) ++
        "], inplace=True)".data⟩
  else line

/-! ### Merge -/

/-- Whether `pat` occurs as a substring (Python's `pat in line`). -/
def hasSubstr (pat : List Char) (l : List Char) : Bool :=
  (reFind (fun _ cs => (matchLit pat cs).map fun _ => ()) false l).isSome

/-- Search groups for `merge\(\s*([^,]+?)\s*,\s*([^,\)]+)\s*(?:,|\))`
(src/R2Python.py:273): the lazy first group stops before the space run
preceding the first comma; the greedy second group runs to the next comma or
closing paren, which must exist. -/
def tryMergeLR (_ : Bool) (cs : List Char) :
    Option (List Char × List Char) :=
  match matchLit "merge(".data cs with
  | none => none
  | some r =>
    let r1 := r.dropWhile isSpaceCh
    let pre := r1.takeWhile (· ≠ ',')
    if pre = [] then none
    else
      match r1.dropWhile (· ≠ ',') with
      | ',' :: r2 =>
        let g1 := pyRstrip pre
        if g1 = [] then none
        else
          let r3 := r2.dropWhile isSpaceCh
          let g2 := r3.takeWhile fun c => c ≠ ',' && c ≠ ')'
          if g2 = [] then none
          else
            match r3.dropWhile (fun c => c ≠ ',' && c ≠ ')') with
            | _ :: _ => some (g1, g2)
            | [] => none
      | _ => none

/-- Search for flag patterns `all\.x\s*=\s*TRUE`, `all\.y\s*=\s*TRUE`,
`all\s*=\s*TRUE` (src/R2Python.py:279-283); there is no word boundary, any
occurrence of the literal counts. -/
def flagSearch (key : List Char) (l : List Char) : Bool :=
  (reFind (fun _ cs =>
    match matchLit key cs with
    | none => none
    | some r =>
      match r.dropWhile isSpaceCh with
      | '=' :: r1 =>
        (matchLit "TRUE".data (r1.dropWhile isSpaceCh)).map fun _ => ()
      | _ => none) false l).isSome

/-- The join-type computation of `handle_merge` (src/R2Python.py:278-284):
`how` starts as `inner`, and each successive flag test overwrites it — so a
later flag wins over an earlier one. -/
def mergeHow (txt : List Char) : List Char :=
  let how := "inner".data
  let how := if flagSearch "all.x".data txt then "left".data else how
  let how := if flagSearch "all.y".data txt then "right".data else how
  if flagSearch "all".data txt then "outer".data else how

/-- Search for `by\s*=\s*(['\"])\s*([\w\.]+)\s*\1` and its `by.x` / `by.y`
variants (src/R2Python.py:287-296): the closing quote must equal the opening
one (a backreference). -/
def bySearch (key : List Char) (l : List Char) : Option (List Char) :=
  reFind (fun _ cs =>
    match matchLit key cs with
    | none => none
    | some r =>
      match r.dropWhile isSpaceCh with
      | '=' :: r1 =>
        match r1.dropWhile isSpaceCh with
        | q :: r2 =>
          if q = '\x27' || q = '"' then
            let r3 := r2.dropWhile isSpaceCh
            let w := r3.takeWhile fun c => isWordCh c || c = '.'
            if w = [] then none
            else
              match (r3.dropWhile fun c => isWordCh c || c = '.').dropWhile
                isSpaceCh with
              | q2 :: _ => if q2 = q then some w else none
              | _ => none
          else none
        | _ => none
      | _ => none) false l

/-- The final `re.sub(r"merge\(.*\)", py, line)` (src/R2Python.py:309): each
`merge(` that is followed by a later `)` (before any newline) is replaced,
together with everything up to the last such `)`, by `py`. -/
def mergeReplace (py : List Char) : Nat → List Char → List Char
  | 0, l => l
  | _ + 1, [] => []
  | fuel + 1, c :: cs =>
    match matchLit "merge(".data (c :: cs) with
    | some r =>
      let seg := r.takeWhile (· ≠ '\n')
      let restNl := r.dropWhile (· ≠ '\n')
      match seg.reverse.dropWhile (· ≠ ')') with
      | ')' :: _ =>
        py ++ mergeReplace py fuel
          ((seg.reverse.takeWhile (· ≠ ')')).reverse ++ restNl)
      | _ => c :: mergeReplace py fuel cs
    | none => c :: mergeReplace py fuel cs

/-- Embeds `handle_merge` (src/R2Python.py:268-309). -/
def handle_merge (line : String) : String :=
  if !hasSubstr "merge(".data line.data then line
  else
    match reFind tryMergeLR false line.data with
    | none => line
    | some (g1, g2) =>
      let left := pyStrip g1
      let right := pyStrip g2
      let how := mergeHow line.data
      let onKey := (bySearch "by".data line.data).map fun w =>
        (to_snake_case ⟨w⟩).data
      let leftOn := (bySearch "by.x".data line.data).map fun w =>
        (to_snake_case ⟨w⟩).data
      let rightOn := (bySearch "by.y".data line.data).map fun w =>
        (to_snake_case ⟨w⟩).data
      let right2 := (handle_square_bracket_subsets ⟨right⟩).data
      let args := [left, right2, "how=\"".data ++ how ++ ['"']] ++
        (match onKey with
         | some o => ["on=\"".data ++ o ++ ['"']]
         | none => []) ++
        (match leftOn with
         | some o => ["left_on=\"".data ++ o ++ ['"']]
         | none => []) ++
        (match rightOn with
         | some o => ["right_on=\"".data ++ o ++ ['"']]
         | none => [])
      let py := "pd.merge(".data ++ joinComma args ++ [')']
      ⟨mergeReplace py line.data.length line.data⟩

/-! ### Function and control headers -/

/-- Consume `\s*\{?`: a greedy space run then an optional opening brace. -/
def consumeSpacesBrace (l : List Char) : List Char :=
  match l.dropWhile isSpaceCh with
  | '\x7b' :: rest => rest
  | r => r

/-- The suffix `\s*=\s*function\((.*?)\)\s*\{?` of the function-definition
pattern (src/R2Python.py:314), returning (argument text, rest). -/
def fnDefSuffix (r : List Char) : Option (List Char × List Char) :=
  match r.dropWhile isSpaceCh with
  | '=' :: r1 =>
    match matchLit "function(".data (r1.dropWhile isSpaceCh) with
    | none => none
    | some r2 =>
      match lazyUpTo ')' r2 with
      | none => none
      | some (g2, r3) => some (g2, consumeSpacesBrace r3)
  | _ => none

/-- The dot-groups of `(\w+(?:\.\w+)*)`: each entry is `.word`, with the rest
after them. -/
def fnNameSegs : Nat → List Char → List (List Char) × List Char
  | 0, l => ([], l)
  | fuel + 1, l =>
    match l with
    | '.' :: r =>
      let w := r.takeWhile isWordCh
      if w = [] then ([], l)
      else
        let (segs, rest) := fnNameSegs fuel (r.dropWhile isWordCh)
        (('.' :: w) :: segs, rest)
    | _ => ([], l)

/-- The replacement `def {to_snake_case(g1)}({g2}):` (src/R2Python.py:315). -/
def fnRepl (name args : List Char) : List Char :=
  "def ".data ++ (to_snake_case ⟨name⟩).data ++ '(' :: (args ++ "):".data)

/-- Greedy backtracking over the dotted name: try the longest name first,
then peel trailing dot-groups (whose text returns to the input). -/
def fnDefCand (name : List Char) : List (List Char) → List Char →
    Option (List Char × Bool × List Char)
  | [], rest =>
    match fnDefSuffix rest with
    | some (args, r) => some (fnRepl name args, false, r)
    | none => none
  | s :: more, rest =>
    match fnDefCand (name ++ s) more rest with
    | some res => some res
    | none =>
      match fnDefSuffix ((s :: more).flatten ++ rest) with
      | some (args, r) => some (fnRepl name args, false, r)
      | none => none

/-- Matcher for `(\w+(?:\.\w+)*)\s*=\s*function\((.*?)\)\s*\{?`
(src/R2Python.py:314-315); no word boundary before the name. -/
def tryFnDef (_ : Bool) (cs : List Char) :
    Option (List Char × Bool × List Char) :=
  let w0 := cs.takeWhile isWordCh
  if w0 = [] then none
  else
    let (segs, rest) := fnNameSegs cs.length (cs.dropWhile isWordCh)
    fnDefCand w0 segs rest

/-- Matcher for `\belse if\s*\((.*?)\)\s*\{?` → `elif \1:`
(src/R2Python.py:317). -/
def tryElseIf (prev : Bool) (cs : List Char) :
    Option (List Char × Bool × List Char) :=
  if prev then none
  else
    match matchLit "else if".data cs with
    | none => none
    | some r =>
      match r.dropWhile isSpaceCh with
      | '(' :: r1 =>
        match lazyUpTo ')' r1 with
        | none => none
        | some (g, r2) =>
          some ("elif ".data ++ g ++ [':'], false, consumeSpacesBrace r2)
      | _ => none

/-- Matcher for `\bif\s*\((.*?)\)\s*\{?` → `if \1:` (src/R2Python.py:318). -/
def tryIf (prev : Bool) (cs : List Char) :
    Option (List Char × Bool × List Char) :=
  if prev then none
  else
    match matchLit "if".data cs with
    | none => none
    | some r =>
      match r.dropWhile isSpaceCh with
      | '(' :: r1 =>
        match lazyUpTo ')' r1 with
        | none => none
        | some (g, r2) =>
          some ("if ".data ++ g ++ [':'], false, consumeSpacesBrace r2)
      | _ => none

/-- Matcher for `\belse\s*\{?\b` → `else:` (src/R2Python.py:319).  The
backtracking over `\s*\{?`: first the full space run plus a brace (needing a
word character after the brace), then the full run bare (needing a word
character next — shorter runs sit between two spaces and never give a
boundary), then no spaces at all (needing a non-word character or the end
after `else`). -/
def tryElse (prev : Bool) (cs : List Char) :
    Option (List Char × Bool × List Char) :=
  if prev then none
  else
    match matchLit "else".data cs with
    | none => none
    | some r =>
      let sp := r.takeWhile isSpaceCh
      let r1 := r.dropWhile isSpaceCh
      let braceCand : Option (List Char × Bool × List Char) :=
        match r1 with
        | '\x7b' :: d :: rest =>
          if isWordCh d then some ("else:".data, false, d :: rest) else none
        | _ => none
      let fullCand : Option (List Char × Bool × List Char) :=
        if sp = [] then none
        else
          match r1 with
          | d :: _ => if isWordCh d then some ("else:".data, false, r1) else none
          | [] => none
      let zeroCand : Option (List Char × Bool × List Char) :=
        match r with
        | [] => some ("else:".data, true, [])
        | d :: _ =>
          if isWordCh d then none else some ("else:".data, true, r)
      braceCand.orElse fun _ => fullCand.orElse fun _ => zeroCand

/-- Matcher for `for\s*\((\w+)\s+in\s+(.*?)\)\s*\{?` → `for \1 in \2:`
(src/R2Python.py:321); no word boundary before `for`, and the lazy group
stops at the first `)` — a nested call in the iterable keeps its tail
outside the match. -/
def tryFor (_ : Bool) (cs : List Char) :
    Option (List Char × Bool × List Char) :=
  match matchLit "for".data cs with
  | none => none
  | some r =>
    match r.dropWhile isSpaceCh with
    | '(' :: r1 =>
      let v := r1.takeWhile isWordCh
      if v = [] then none
      else
        let r2 := r1.dropWhile isWordCh
        if r2.takeWhile isSpaceCh = [] then none
        else
          match matchLit "in".data (r2.dropWhile isSpaceCh) with
          | none => none
          | some r3 =>
            if r3.takeWhile isSpaceCh = [] then none
            else
              match lazyUpTo ')' (r3.dropWhile isSpaceCh) with
              | none => none
              | some (g, r4) =>
                some ("for ".data ++ v ++ " in ".data ++ g ++ [':'], false,
                  consumeSpacesBrace r4)
    | _ => none

/-- Matcher for `while\s*\((.*?)\)\s*\{?` → `while \1:`
(src/R2Python.py:323); no word boundary before `while`. -/
def tryWhile (_ : Bool) (cs : List Char) :
    Option (List Char × Bool × List Char) :=
  match matchLit "while".data cs with
  | none => none
  | some r =>
    match r.dropWhile isSpaceCh with
    | '(' :: r1 =>
      match lazyUpTo ')' r1 with
      | none => none
      | some (g, r2) =>
        some ("while ".data ++ g ++ [':'], false, consumeSpacesBrace r2)
    | _ => none

/-- The all-spaces case of `\s*(.+)$`: when only whitespace follows, the
greedy `\s*` gives one character back so `(.+)` can take it. -/
def slifTail (rest : List Char) : Option (List Char) :=
  match rest.dropWhile isSpaceCh with
  | [] =>
    match rest.getLast? with
    | some d => some [d]
    | none => none
  | t => some t

/-- Backtracking of the lazy group over successive `)` characters for the
single-line-if pattern. -/
def slifScan : Nat → List Char → Option (List Char × List Char)
  | 0, _ => none
  | fuel + 1, l =>
    match lazyUpTo ')' l with
    | none => none
    | some (g1, rest) =>
      match slifTail rest with
      | some g2 => some (g1, g2)
      | none =>
        match slifScan fuel rest with
        | some (g1', g2) => some (g1 ++ ')' :: g1', g2)
        | none => none

/-- The anchored rewrite `^\s*if\s*\((.*?)\)\s*(.+)$` → `if \1:\n    \2`
(src/R2Python.py:327), replacing the whole line on a match (the leading
spaces are part of the match and disappear).  The lines in play are
newline-free. -/
def singleLineIf (l : List Char) : List Char :=
  if l.contains '\n' then l
  else
    match matchLit "if".data (l.dropWhile isSpaceCh) with
    | none => l
    | some r =>
      match r.dropWhile isSpaceCh with
      | '(' :: r1 =>
        match slifScan r1.length r1 with
        | some (g1, g2) =>
          "if ".data ++ g1 ++ ':' :: '\n' :: ("    ".data ++ g2)
        | none => l
      | _ => l

/-- Embeds `handle_functions_and_controls` (src/R2Python.py:312-328): the
eight substitutions in source order. -/
def handle_functions_and_controls (line : String) : String :=
  let l1 := reSub tryFnDef line.data
  let l2 := reSub tryElseIf l1
  let l3 := reSub tryIf l2
  let l4 := reSub tryElse l3
  let l5 := reSub tryFor l4
  let l6 := reSub tryWhile l5
  let l7 := reSub (tryNameCall "stop".data fun g =>
    "raise Exception(".data ++ g ++ [')']) l6
  ⟨singleLineIf l7⟩

/-- Matcher for `\[\s*(['\"])\s*([\w\.]+)\s*\1\s*\]` →
`[repr(to_snake_case(g2))]` (src/R2Python.py:333). -/
def tryMiscBracket (_ : Bool) (cs : List Char) :
    Option (List Char × Bool × List Char) :=
  match cs with
  | '[' :: r =>
    match r.dropWhile isSpaceCh with
    | q :: r1 =>
      if q = '\x27' || q = '"' then
        let r2 := r1.dropWhile isSpaceCh
        let w := r2.takeWhile fun c => isWordCh c || c = '.'
        if w = [] then none
        else
          match (r2.dropWhile fun c => isWordCh c || c = '.').dropWhile
            isSpaceCh with
          | q2 :: r3 =>
            if q2 = q then
              match r3.dropWhile isSpaceCh with
              | ']' :: r4 =>
                some ('[' :: (pyReprChars (to_snake_case ⟨w⟩).data ++ [']']),
                  false, r4)
              | _ => none
            else none
          | _ => none
      else none
    | _ => none
  | _ => none

/-- Embeds `handle_misc` (src/R2Python.py:331-335). -/
def handle_misc (line : String) : String :=
  ⟨reSub tryMiscBracket line.data⟩

/-! ### The indentation manager and the orchestrator -/

/-- Embeds the `IndentState` dataclass (src/R2Python.py:341-343).  The level
is kept as an `Int` so that non-negativity is a real statement. -/
structure IndentState where
  level : Int
deriving DecidableEq

/-- Embeds `IndentState.apply` (src/R2Python.py:345-365): dedent by the
number of `}` before writing (floored at zero), strip both braces, emit the
stripped line under the current indent, and indent one level after a line
ending in `:`.  (The elif/else special case in the source is a no-op `pass`.)
The mutated level is returned as a new state; Python's `'    ' * level` is
empty for a non-positive level, matching `Int.toNat`. -/
def IndentState.apply (st : IndentState) (line : String) :
    String × IndentState :=
  let closes : Int := (line.data.count '\x7d' : Int)
  let lvl : Int := max (st.level - closes) 0
  let trimmed := pyStrip (pyRstrip (line.data.filter fun c =>
    c ≠ '\x7b' && c ≠ '\x7d'))
  let out := List.replicate (4 * lvl.toNat) ' ' ++ trimmed
  let lvl2 := if trimmed.getLast? = some ':' then lvl + 1 else lvl
  (⟨out⟩, ⟨lvl2⟩)

/-- The ordered pass list of `RToPythonConverter.__init__`
(src/R2Python.py:374-390). -/
def passes : List (String → String) :=
  [handle_assignments, handle_df_access, handle_vector_and_seq,
   handle_unique_rbind_cbind, handle_names_and_rename,
   handle_listfiles_and_grep, handle_read_write_csv, handle_dates,
   handle_subset, handle_square_bracket_subsets, handle_chained_null_drops,
   handle_merge, handle_functions_and_controls, handle_misc]

/-- Python `str.split('\n')` (the accumulator is kept reversed). -/
def splitNl : List Char → List Char → List (List Char)
  | acc, [] => [acc.reverse]
  | acc, '\n' :: cs => acc.reverse :: splitNl [] cs
  | acc, c :: cs => splitNl (c :: acc) cs

/-- `raw.lstrip().startswith('#')`: the first non-whitespace character is a
hash. -/
def firstNonWsHash (l : List Char) : Bool :=
  (l.dropWhile isSpaceCh).head? = some '#'

/-- Embeds `RToPythonConverter.transform_line` (src/R2Python.py:392-419),
with the converter's indent state threaded explicitly: blank lines emit one
empty line, comment lines pass through minus trailing newlines, anything
else runs through every pass and the indent manager; a multi-line result
(from the single-line-if injection) is split and its continuation lines are
re-indented after bumping the level below a header line. -/
def transform_line (st : IndentState) (raw : String) :
    List String × IndentState :=
  if pyStrip raw.data = [] then ([""], st)
  else if firstNonWsHash raw.data then ([⟨rstripNl raw.data⟩], st)
  else
    let line := passes.foldl (fun l p => p l) (⟨rstripNl raw.data⟩ : String)
    let (out, st1) := st.apply line
    if out.data.contains '\n' then
      match splitNl [] out.data with
      | [] => ([], st1)
      | first :: rest =>
        let st2 : IndentState :=
          if (pyRstrip first).getLast? = some ':' then ⟨st1.level + 1⟩ else st1
        (⟨first⟩ :: rest.map (fun ln =>
          ⟨List.replicate (4 * st2.level.toNat) ' ' ++ pyStrip ln⟩), st2)
    else ([out], st1)

end R2Py

namespace R2Py

/-! ### Character-level facts -/

theorem charEq_iff_toNat {a b : Char} : a = b ↔ a.toNat = b.toNat :=
  Char.ext_iff.trans UInt32.ext_iff

theorem charLe_iff_toNat {a b : Char} : a ≤ b ↔ a.toNat ≤ b.toNat := Iff.rfl

theorem toNat_ofNat_valid (n : Nat) (h : n.isValidChar) :
    (Char.ofNat n).toNat = n := by
  simp [Char.ofNat, h, Char.ofNatAux, Char.toNat, UInt32.toNat]

theorem isUpperCh_toNat {c : Char} (h : isUpperCh c = true) :
    65 ≤ c.toNat ∧ c.toNat ≤ 90 := by
  simp only [isUpperCh, Bool.and_eq_true, decide_eq_true_eq] at h
  have h1 : ('A' : Char).toNat ≤ c.toNat := charLe_iff_toNat.mp h.1
  have h2 : c.toNat ≤ ('Z' : Char).toNat := charLe_iff_toNat.mp h.2
  have e1 : ('A' : Char).toNat = 65 := by decide
  have e2 : ('Z' : Char).toNat = 90 := by decide
  omega

/-- `toLowerCh` either leaves its argument alone or produces an ASCII
lower-case letter (from an upper-case one). -/
theorem toLowerCh_cases (c : Char) :
    toLowerCh c = c ∨
      (isUpperCh c = true ∧ 97 ≤ (toLowerCh c).toNat ∧ (toLowerCh c).toNat ≤ 122) := by
  by_cases h : isUpperCh c = true
  · right
    obtain ⟨h1, h2⟩ := isUpperCh_toNat h
    have hv : (c.toNat + 32).isValidChar := by
      left
      omega
    have he : toLowerCh c = Char.ofNat (c.toNat + 32) := by
      unfold toLowerCh
      rw [if_pos h]
    refine ⟨h, ?_, ?_⟩ <;> rw [he, toNat_ofNat_valid _ hv] <;> omega
  · left
    simp [toLowerCh, h]

theorem isUpperCh_toLowerCh (c : Char) : isUpperCh (toLowerCh c) = false := by
  rcases toLowerCh_cases c with h | ⟨_, h1, h2⟩
  · rw [h]
    by_cases hu : isUpperCh c = true
    · exfalso
      unfold toLowerCh at h
      simp only [hu, if_true] at h
      obtain ⟨b1, b2⟩ := isUpperCh_toNat hu
      have hv : (c.toNat + 32).isValidChar := by left; omega
      have := toNat_ofNat_valid (c.toNat + 32) hv
      have hc := charEq_iff_toNat.mp h
      omega
    · exact Bool.not_eq_true _ ▸ hu
  · by_contra hb
    rw [Bool.not_eq_false] at hb
    obtain ⟨u1, u2⟩ := isUpperCh_toNat hb
    omega

theorem toLowerCh_ne_of_toNat (c : Char) (d : Char)
    (hne : c ≠ d) (hd : d.toNat < 97 ∨ 122 < d.toNat) : toLowerCh c ≠ d := by
  rcases toLowerCh_cases c with h | ⟨_, h1, h2⟩
  · rw [h]; exact hne
  · intro he
    have := charEq_iff_toNat.mp he
    omega

theorem toLowerCh_underscore_iff (c : Char) : toLowerCh c = '_' ↔ c = '_' := by
  constructor
  · intro h
    rcases toLowerCh_cases c with h0 | ⟨_, h1, h2⟩
    · rw [← h0]; exact h
    · exfalso
      have hn := charEq_iff_toNat.mp h
      have e : ('_' : Char).toNat = 95 := by decide
      omega
  · intro h
    subst h
    rfl

/-! ### Facts about the identifier normalizer -/

theorem mem_sepToUnderscore {c : Char} {l : List Char}
    (h : c ∈ sepToUnderscore l) : c ≠ '.' ∧ c ≠ '-' := by
  unfold sepToUnderscore at h
  obtain ⟨d, _, hd⟩ := List.mem_map.mp h
  by_cases hc : d = '.' || d = '-'
  · rw [if_pos hc] at hd
    subst hd
    exact ⟨by decide, by decide⟩
  · rw [if_neg hc] at hd
    subst hd
    simp only [Bool.or_eq_true, decide_eq_true_eq, not_or] at hc
    exact ⟨hc.1, hc.2⟩

theorem mem_camelGo {c : Char} : ∀ {l : List Char}, c ∈ camelGo l → c ∈ l ∨ c = '_'
  | [], h => Or.inl h
  | [_], h => Or.inl h
  | a :: b :: rest, h => by
    unfold camelGo at h
    by_cases hc : (isLowDig a && isUpperCh b) = true
    · rw [if_pos hc] at h
      rcases List.mem_cons.mp h with rfl | h
      · exact Or.inl (by simp)
      rcases List.mem_cons.mp h with rfl | h
      · exact Or.inr rfl
      rcases List.mem_cons.mp h with rfl | h
      · exact Or.inl (by simp)
      rcases mem_camelGo h with h' | h'
      · exact Or.inl (by simp [h'])
      · exact Or.inr h'
    · rw [if_neg hc] at h
      rcases List.mem_cons.mp h with rfl | h
      · exact Or.inl (by simp)
      rcases mem_camelGo h with h' | h'
      · exact Or.inl (List.mem_cons_of_mem _ h')
      · exact Or.inr h'

theorem mem_collapseGo {c : Char} : ∀ {b : Bool} {l : List Char},
    c ∈ collapseGo b l → c ∈ l
  | _, [], h => h
  | b, d :: cs, h => by
    unfold collapseGo at h
    by_cases hd : d = '_'
    · rw [if_pos hd] at h
      cases b with
      | true =>
        simp only [if_true] at h
        exact List.mem_cons_of_mem _ (mem_collapseGo h)
      | false =>
        simp only [Bool.false_eq_true, if_false] at h
        rcases List.mem_cons.mp h with h | h
        · simp [h]
        · exact List.mem_cons_of_mem _ (mem_collapseGo h)
    · rw [if_neg hd] at h
      rcases List.mem_cons.mp h with h | h
      · simp [h]
      · exact List.mem_cons_of_mem _ (mem_collapseGo h)

theorem sepToUnderscore_id {l : List Char}
    (h : ∀ c ∈ l, c ≠ '.' ∧ c ≠ '-') : sepToUnderscore l = l := by
  unfold sepToUnderscore
  induction l with
  | nil => rfl
  | cons a t ih =>
    obtain ⟨h1, h2⟩ := h a (by simp)
    simp only [List.map_cons]
    rw [if_neg (by simp [h1, h2]), ih fun c hc => h c (List.mem_cons_of_mem _ hc)]

theorem camelGo_id : ∀ {l : List Char}, (∀ c ∈ l, isUpperCh c = false) → camelGo l = l
  | [], _ => rfl
  | [a], _ => rfl
  | a :: b :: rest, h => by
    have hb : isUpperCh b = false := h b (by simp)
    unfold camelGo
    rw [if_neg (by simp [hb])]
    rw [camelGo_id fun c hc => h c (List.mem_cons_of_mem _ hc)]

/-- Whether a character list contains no two adjacent underscores. -/
def noAdjU : List Char → Bool
  | a :: b :: r => !(a = '_' && b = '_') && noAdjU (b :: r)
  | _ => true

theorem collapseGo_head_true : ∀ {l : List Char} {c : Char} {r : List Char},
    collapseGo true l = c :: r → c ≠ '_'
  | [], _, _, h => by simp [collapseGo] at h
  | d :: cs, c, r, h => by
    unfold collapseGo at h
    by_cases hd : d = '_'
    · rw [if_pos hd] at h
      simp only [if_true] at h
      exact collapseGo_head_true h
    · rw [if_neg hd] at h
      rw [List.cons.injEq] at h
      exact fun hc => hd (h.1.trans hc)

theorem noAdjU_cons {c : Char} {l : List Char}
    (h : ∀ d r, l = d :: r → ¬(c = '_' ∧ d = '_'))
    (hl : noAdjU l = true) : noAdjU (c :: l) = true := by
  cases l with
  | nil => rfl
  | cons d r =>
    have hcd := h d r rfl
    unfold noAdjU
    rw [Bool.and_eq_true]
    refine ⟨?_, hl⟩
    rw [Bool.not_eq_true', Bool.and_eq_false_iff]
    by_cases hc : c = '_'
    · right
      simp only [decide_eq_false_iff_not]
      exact fun hd => hcd ⟨hc, hd⟩
    · left
      simp only [decide_eq_false_iff_not]
      exact hc

theorem collapseGo_noAdjU : ∀ (l : List Char),
    noAdjU (collapseGo false l) = true ∧ noAdjU (collapseGo true l) = true
  | [] => ⟨rfl, rfl⟩
  | c :: cs => by
    have ih := collapseGo_noAdjU cs
    by_cases hc : c = '_'
    · subst hc
      constructor
      · show noAdjU (collapseGo false ('_' :: cs)) = true
        unfold collapseGo
        simp only [if_pos rfl, Bool.false_eq_true, if_false]
        refine noAdjU_cons (fun d r hdr => ?_) ih.2
        intro ⟨_, hd⟩
        exact collapseGo_head_true hdr hd
      · show noAdjU (collapseGo true ('_' :: cs)) = true
        unfold collapseGo
        simp only [if_pos rfl, if_true]
        exact ih.2
    · constructor <;>
      · unfold collapseGo
        rw [if_neg hc]
        refine noAdjU_cons (fun d r _ => fun h => hc h.1) ih.1

theorem collapseGo_id : ∀ {l : List Char}, noAdjU l = true →
    collapseGo false l = l ∧
      (∀ d r, l = d :: r → d ≠ '_' → collapseGo true l = l)
  | [], _ => ⟨rfl, fun _ _ h => by simp at h⟩
  | c :: cs, h => by
    have hh : noAdjU cs = true := by
      cases cs with
      | nil => rfl
      | cons b r =>
        unfold noAdjU at h
        rw [Bool.and_eq_true] at h
        exact h.2
    have ih := collapseGo_id hh
    constructor
    · by_cases hc : c = '_'
      · subst hc
        have e : collapseGo false ('_' :: cs) = '_' :: collapseGo true cs := by
          simp [collapseGo]
        rw [e]
        cases cs with
        | nil => rfl
        | cons b r =>
          have hb : b ≠ '_' := by
            unfold noAdjU at h
            rw [Bool.and_eq_true] at h
            have h1 := h.1
            rw [Bool.not_eq_true', Bool.and_eq_false_iff] at h1
            rcases h1 with h1 | h1
            · simp at h1
            · simpa using h1
          rw [ih.2 b r rfl hb]
      · have e : collapseGo false (c :: cs) = c :: collapseGo false cs := by
          simp [collapseGo, hc]
        rw [e, ih.1]
    · intro d r hdr hd
      injection hdr with e1 e2
      subst e1
      subst e2
      have e : collapseGo true (c :: cs) = c :: collapseGo false cs := by
        simp [collapseGo, hd]
      rw [e, ih.1]

theorem map_toLowerCh_id {l : List Char}
    (h : ∀ c ∈ l, isUpperCh c = false) : l.map toLowerCh = l := by
  induction l with
  | nil => rfl
  | cons a t ih =>
    simp only [List.map_cons]
    have ha : toLowerCh a = a := by
      unfold toLowerCh
      rw [h a (by simp)]
      simp
    rw [ha, ih fun c hc => h c (List.mem_cons_of_mem _ hc)]

theorem noAdjU_map_toLowerCh : ∀ {l : List Char},
    noAdjU l = true → noAdjU (l.map toLowerCh) = true
  | [], _ => rfl
  | [a], _ => rfl
  | a :: b :: r, h => by
    unfold noAdjU at h
    rw [Bool.and_eq_true] at h
    obtain ⟨h1, h2⟩ := h
    simp only [List.map_cons]
    show noAdjU (toLowerCh a :: toLowerCh b :: (r.map toLowerCh)) = true
    unfold noAdjU
    rw [Bool.and_eq_true]
    constructor
    · rw [Bool.not_eq_true', Bool.and_eq_false_iff]
      rw [Bool.not_eq_true', Bool.and_eq_false_iff] at h1
      rcases h1 with h1 | h1
      · left
        simp only [decide_eq_false_iff_not] at h1 ⊢
        rw [toLowerCh_underscore_iff]
        exact h1
      · right
        simp only [decide_eq_false_iff_not] at h1 ⊢
        rw [toLowerCh_underscore_iff]
        exact h1
    · exact noAdjU_map_toLowerCh h2

theorem to_snake_case_chars {s : String} :
    ∀ c ∈ (to_snake_case s).data, (c ≠ '.' ∧ c ≠ '-') ∧ isUpperCh c = false := by
  intro c hc
  have hc' : c ∈ (collapseGo false (camelGo (sepToUnderscore s.data))).map toLowerCh := hc
  obtain ⟨d, hd, rfl⟩ := List.mem_map.mp hc'
  rcases mem_camelGo (mem_collapseGo hd) with h3 | h3
  · obtain ⟨h4, h5⟩ := mem_sepToUnderscore h3
    refine ⟨⟨?_, ?_⟩, isUpperCh_toLowerCh d⟩
    · exact toLowerCh_ne_of_toNat d '.' h4 (by left; decide)
    · exact toLowerCh_ne_of_toNat d '-' h5 (by left; decide)
  · subst h3
    exact ⟨⟨by decide, by decide⟩, isUpperCh_toLowerCh _⟩

theorem to_snake_case_noAdjU (s : String) : noAdjU (to_snake_case s).data = true :=
  noAdjU_map_toLowerCh (collapseGo_noAdjU _).1

/-- C8: the Identifier Normalizer `to_snake_case` is a total function on all
strings (in particular it is defined on, and fixes, the empty string) and is
idempotent: applying it twice gives the same result as applying it once. -/
theorem to_snake_case_total_idem :
    to_snake_case "" = "" ∧
      ∀ s : String, to_snake_case (to_snake_case s) = to_snake_case s := by
  refine ⟨rfl, fun s => ?_⟩
  have hch := fun c hc => to_snake_case_chars (s := s) c hc
  show (⟨(collapseGo false (camelGo (sepToUnderscore (to_snake_case s).data))).map
    toLowerCh⟩ : String) = to_snake_case s
  rw [sepToUnderscore_id (fun c hc => (hch c hc).1)]
  rw [camelGo_id (fun c hc => (hch c hc).2)]
  rw [(collapseGo_id (to_snake_case_noAdjU s)).1]
  rw [map_toLowerCh_id (fun c hc => (hch c hc).2)]

/-! ### Facts about the sequence rewriting -/

theorem takeWhile_app_of_all {p : Char → Bool} {l : List Char}
    (h : ∀ c ∈ l, p c = true) {d : Char} (hd : p d = false) (r : List Char) :
    (l ++ d :: r).takeWhile p = l := by
  induction l with
  | nil => simp [List.takeWhile, hd]
  | cons a t ih =>
    simp only [List.cons_append, List.takeWhile_cons, h a (by simp), if_true]
    rw [ih fun c hc => h c (List.mem_cons_of_mem _ hc)]

theorem dropWhile_app_of_all {p : Char → Bool} {l : List Char}
    (h : ∀ c ∈ l, p c = true) {d : Char} (hd : p d = false) (r : List Char) :
    (l ++ d :: r).dropWhile p = d :: r := by
  induction l with
  | nil => simp [List.dropWhile, hd]
  | cons a t ih =>
    simp only [List.cons_append, List.dropWhile_cons, h a (by simp), if_true]
    exact ih fun c hc => h c (List.mem_cons_of_mem _ hc)

theorem takeWhile_of_all {p : Char → Bool} {l : List Char}
    (h : ∀ c ∈ l, p c = true) : l.takeWhile p = l := by
  induction l with
  | nil => rfl
  | cons a t ih =>
    simp only [List.takeWhile_cons, h a (by simp), if_true]
    rw [ih fun c hc => h c (List.mem_cons_of_mem _ hc)]

theorem dropWhile_of_all {p : Char → Bool} {l : List Char}
    (h : ∀ c ∈ l, p c = true) : l.dropWhile p = [] := by
  induction l with
  | nil => rfl
  | cons a t ih =>
    simp only [List.dropWhile_cons, h a (by simp), if_true]
    exact ih fun c hc => h c (List.mem_cons_of_mem _ hc)

theorem dropWhile_head_neg {p : Char → Bool} {c : Char} (h : p c = false)
    (l : List Char) : (c :: l).dropWhile p = c :: l := by
  simp [List.dropWhile_cons, h]

theorem isDigitCh_toNat {c : Char} (h : isDigitCh c = true) :
    48 ≤ c.toNat ∧ c.toNat ≤ 57 := by
  simp only [isDigitCh, Char.isDigit, Bool.and_eq_true, decide_eq_true_eq] at h
  have h1 : ('0' : Char).toNat ≤ c.toNat := charLe_iff_toNat.mp h.1
  have h2 : c.toNat ≤ ('9' : Char).toNat := charLe_iff_toNat.mp h.2
  have e1 : ('0' : Char).toNat = 48 := by decide
  have e2 : ('9' : Char).toNat = 57 := by decide
  omega

theorem isDigitCh_ne {c d : Char} (h : isDigitCh c = true)
    (hd : d.toNat < 48 ∨ 57 < d.toNat) : c ≠ d := by
  obtain ⟨h1, h2⟩ := isDigitCh_toNat h
  intro he
  have := charEq_iff_toNat.mp he
  omega

theorem isDigitCh_not_space {c : Char} (h : isDigitCh c = true) :
    isSpaceCh c = false := by
  obtain ⟨h1, h2⟩ := isDigitCh_toNat h
  unfold isSpaceCh
  have hne : ∀ d : Char, d.toNat < 48 → c ≠ d := fun d hd =>
    isDigitCh_ne h (Or.inl hd)
  simp only [Bool.or_eq_false_iff, decide_eq_false_iff_not]
  refine ⟨⟨⟨⟨⟨?_, ?_⟩, ?_⟩, ?_⟩, ?_⟩, ?_⟩ <;> exact hne _ (by decide)

theorem digitCh_isDigit {m : Nat} (h : m < 10) : isDigitCh (digitCh m) = true := by
  interval_cases m <;> decide

theorem natToCharsGo_digits : ∀ (fuel n : Nat) (acc : List Char),
    (∀ c ∈ acc, isDigitCh c = true) →
    ∀ c ∈ natToCharsGo fuel n acc, isDigitCh c = true
  | 0, _, _, h => h
  | _ + 1, 0, _, h => h
  | fuel + 1, n + 1, acc, h => by
    show ∀ c ∈ natToCharsGo fuel ((n + 1) / 10) (digitCh ((n + 1) % 10) :: acc),
      isDigitCh c = true
    refine natToCharsGo_digits fuel _ _ ?_
    intro c hc
    rcases List.mem_cons.mp hc with rfl | hc
    · exact digitCh_isDigit (Nat.mod_lt _ (by omega))
    · exact h c hc

theorem natToChars_digits (n : Nat) : ∀ c ∈ natToChars n, isDigitCh c = true := by
  unfold natToChars
  by_cases h : n = 0
  · rw [if_pos h]
    intro c hc
    rcases List.mem_singleton.mp hc with rfl
    decide
  · rw [if_neg h]
    exact natToCharsGo_digits n n [] (by simp)

theorem reSubF_nil (tryM : Bool → List Char → Option (List Char × Bool × List Char))
    (fuel : Nat) (b : Bool) : reSubF tryM fuel b [] = [] := by
  cases fuel <;> rfl

theorem matchLit_head_ne {p c : Char} {ps cs : List Char} (h : p ≠ c) :
    matchLit (p :: ps) (c :: cs) = none := by
  simp [matchLit, h]

theorem range_match (s₁ s₂ : List Char) (h₁ : s₁ ≠ []) (h₂ : s₂ ≠ [])
    (hd₁ : ∀ c ∈ s₁, isDigitCh c = true) (hd₂ : ∀ c ∈ s₂, isDigitCh c = true) :
    tryRangeColon false (s₁ ++ ':' :: s₂) =
      some ("range(".data ++ s₁ ++ ", ".data ++
        natToChars (parseDigits s₂ + 1) ++ [')'], true, []) := by
  obtain ⟨b, u, rfl⟩ : ∃ b u, s₂ = b :: u := by
    cases s₂ with
    | nil => exact absurd rfl h₂
    | cons b u => exact ⟨b, u, rfl⟩
  have e1 : (s₁ ++ ':' :: b :: u).takeWhile isDigitCh = s₁ :=
    takeWhile_app_of_all hd₁ (by decide) _
  have e2 : (s₁ ++ ':' :: b :: u).dropWhile isDigitCh = ':' :: b :: u :=
    dropWhile_app_of_all hd₁ (by decide) _
  have e3 : (':' :: b :: u).dropWhile isSpaceCh = ':' :: b :: u :=
    dropWhile_head_neg (by decide) _
  have e4 : (b :: u).dropWhile isSpaceCh = b :: u :=
    dropWhile_head_neg (isDigitCh_not_space (hd₂ b (by simp))) u
  have e5 : (b :: u).takeWhile isDigitCh = b :: u := takeWhile_of_all hd₂
  have e6 : (b :: u).dropWhile isDigitCh = [] := dropWhile_of_all hd₂
  unfold tryRangeColon
  simp only [e1, e2, e3, e4, e5, e6, if_neg h₁, if_neg h₂, Bool.false_eq_true,
    if_false]

theorem reSub_range (s₁ s₂ : List Char) (h₁ : s₁ ≠ []) (h₂ : s₂ ≠ [])
    (hd₁ : ∀ c ∈ s₁, isDigitCh c = true) (hd₂ : ∀ c ∈ s₂, isDigitCh c = true) :
    reSub tryRangeColon (s₁ ++ ':' :: s₂) =
      "range(".data ++ s₁ ++ ", ".data ++
        natToChars (parseDigits s₂ + 1) ++ [')'] := by
  obtain ⟨a, t, rfl⟩ : ∃ a t, s₁ = a :: t := by
    cases s₁ with
    | nil => exact absurd rfl h₁
    | cons a t => exact ⟨a, t, rfl⟩
  have hm := range_match (a :: t) s₂ h₁ h₂ hd₁ hd₂
  unfold reSub
  simp only [List.cons_append] at hm ⊢
  rw [show (a :: (t ++ ':' :: s₂)).length = (t ++ ':' :: s₂).length + 1 from rfl]
  simp only [reSubF, hm, reSubF_nil, List.append_nil, List.cons_append]

theorem seq_noS : ∀ (l : List Char), (∀ c ∈ l, c ≠ 's') →
    ∀ (fuel : Nat) (b : Bool), reSubF trySeqCall fuel b l = l
  | [], _, fuel, b => reSubF_nil _ fuel b
  | c :: cs, h, fuel, b => by
    cases fuel with
    | zero => rfl
    | succ fuel =>
      have hm : trySeqCall b (c :: cs) = none := by
        unfold trySeqCall
        cases b with
        | true => simp
        | false =>
          rw [if_neg (by simp)]
          rw [show ("seq(".data : List Char) = 's' :: "eq(".data from rfl]
          rw [matchLit_head_ne (fun he => h c (by simp) he.symm)]
      rw [reSubF, hm]
      rw [seq_noS cs (fun d hd => h d (List.mem_cons_of_mem _ hd)) fuel _]

/-- C7: for all nonempty decimal-digit literals `s₁` (value `a`) and `s₂`
(value `b`) with `a ≤ b`, the range rewrite turns `s₁:s₂` into
`range(s₁, b+1)` — the inclusive upper bound becomes the exclusive bound
`b + 1` (and the `seq` pass leaves the result untouched). -/
theorem convert_seq_range_rewrite (s₁ s₂ : List Char)
    (h₁ : s₁ ≠ []) (h₂ : s₂ ≠ [])
    (hd₁ : ∀ c ∈ s₁, isDigitCh c = true) (hd₂ : ∀ c ∈ s₂, isDigitCh c = true)
    (_hle : parseDigits s₁ ≤ parseDigits s₂) :
    convert_seq_ranges ⟨s₁ ++ ':' :: s₂⟩ =
      ⟨"range(".data ++ s₁ ++ ", ".data ++
        natToChars (parseDigits s₂ + 1) ++ [')']⟩ := by
  unfold convert_seq_ranges
  rw [show (String.mk (s₁ ++ ':' :: s₂)).data = s₁ ++ ':' :: s₂ from rfl]
  rw [reSub_range s₁ s₂ h₁ h₂ hd₁ hd₂]
  unfold reSub
  rw [seq_noS _ ?hs _ _]
  case hs =>
    intro c hc
    simp only [List.mem_append, List.mem_cons, List.not_mem_nil, or_false] at hc
    have hdigs : isDigitCh c = true → c ≠ 's' := fun hdig he => by
      rw [he] at hdig
      exact absurd hdig (by decide)
    rcases hc with ((((hc | hc) | hc) | hc) | hc)
    · rcases hc with rfl | rfl | rfl | rfl | rfl | rfl <;> decide
    · exact hdigs (hd₁ c hc)
    · rcases hc with rfl | rfl <;> decide
    · exact hdigs (natToChars_digits _ c hc)
    · subst hc
      decide

/-- Witness for C7 at the concrete literal `1:3`, which becomes
`range(1, 4)`. -/
theorem convert_seq_range_rewrite_witness :
    convert_seq_ranges "1:3" = "range(1, 4)" := by
  have h := convert_seq_range_rewrite ['1'] ['3'] (by decide) (by decide)
    (by decide) (by decide) (by decide)
  exact h

/-! ### C1: chained NULL drops -/

/-- C1: the bulk column drop never happens for `df$a <- df$b <- NULL`.  The
member-access pass (pass 2) rewrites `df$a`/`df$b` to `df["a"]`/`df["b"]`
before `handle_chained_null_drops` (pass 11) looks for `$`, so its `findall`
comes back empty and the line passes through as a chained Python assignment
(with the quote style changed by `handle_misc`) instead of the documented
single bulk removal.  The second conjunct shows the drop handler itself would
have produced the bulk removal had the line still contained `$` accesses. -/
theorem chained_null_drop_bypassed :
    transform_line ⟨0⟩ "df$a <- df$b <- NULL" =
      (["df[\x27a\x27] = df[\x27b\x27] = NULL"], ⟨0⟩) ∧
    handle_chained_null_drops "df$a = df$b = NULL" =
      "df.drop(columns=[\x27a\x27, \x27b\x27], inplace=True)" ∧
    (["df[\x27a\x27] = df[\x27b\x27] = NULL"] : List String) ≠
      ["df = df.drop(columns=[\"a\", \"b\"])"] := by
  refine ⟨by decide, by decide, by decide⟩

/-! ### C2: merge flag precedence -/

/-- C2 counterexample: with both `all.x = TRUE` and `all.y = TRUE` on one
merge call, the join type computed by `handle_merge` is `right`, not `left`:
the three flag checks overwrite `how` in sequence, so the later check wins. -/
theorem merge_both_flags_right_not_left :
    handle_merge "m = merge(a, b, all.x = TRUE, all.y = TRUE)" =
      "m = pd.merge(a, b, how=\"right\")" ∧
    mergeHow "m = merge(a, b, all.x = TRUE, all.y = TRUE)".data = "right".data ∧
    mergeHow "m = merge(a, b, all.x = TRUE, all.y = TRUE)".data ≠ "left".data := by
  refine ⟨by decide, by decide, by decide⟩

/-- C2 amended: the actual precedence is the reverse of the claimed one — the
outer flag (`all = TRUE`) wins over the right flag (`all.y = TRUE`), which
wins over the left flag (`all.x = TRUE`); `left` results only when the left
flag is the sole flag set. -/
theorem merge_flag_precedence :
    handle_merge "m = merge(a, b, all.x = TRUE, all.y = TRUE)" =
      "m = pd.merge(a, b, how=\"right\")" ∧
    handle_merge "m = merge(a, b, all.y = TRUE, all = TRUE)" =
      "m = pd.merge(a, b, how=\"outer\")" ∧
    handle_merge "m = merge(a, b, all.x = TRUE, all = TRUE)" =
      "m = pd.merge(a, b, how=\"outer\")" ∧
    handle_merge "m = merge(a, b, all.x = TRUE)" =
      "m = pd.merge(a, b, how=\"left\")" := by
  refine ⟨by decide, by decide, by decide, by decide⟩

/-! ### C3: the for-loop end-to-end example -/

/-- C3: the transform does not produce the claimed two-line loop.  The
range pass first turns `1:3` into `range(1, 4)`; the lazy group of the
for-header regex then stops at the first `)` — the one closing `range(` —
so the emitted header is the malformed `for i in range(1, 4:` and the rest
of the line (brace-stripped, with `stop` rewritten) stays on the same line.
The code's own documented purpose (converting for-loops and ranges to
runnable Python) makes the single malformed line a slip, not intent. -/
theorem for_loop_header_truncated :
    transform_line ⟨0⟩ "for (i in 1:3) \x7b stop(\"bad\") \x7d" =
      (["for i in range(1, 4:)  raise Exception(\"bad\")"], ⟨0⟩) ∧
    (["for i in range(1, 4:)  raise Exception(\"bad\")"] : List String) ≠
      ["for i in range(1, 4):", "    raise Exception(\"bad\")"] := by
  refine ⟨by decide, by decide⟩

/-! ### C4: the single-line if end-to-end example -/

/-- C4 counterexample: the transform emits one line, not the claimed two.
The if-header rule consumes `if (a > 0) {` (its parentheses included), so
the later single-line-injection rule — which still requires `if (` — can
never fire, and `handle_misc` re-quotes `["score"]` to `['score']`. -/
theorem single_line_if_stays_one_line :
    transform_line ⟨0⟩ "if (a > 0) \x7b y <- a$score \x7d" =
      (["if a > 0: y = a[\x27score\x27]"], ⟨0⟩) ∧
    (["if a > 0: y = a[\x27score\x27]"] : List String) ≠
      ["if a > 0:", "    y = a[\"score\"]"] := by
  refine ⟨by decide, by decide⟩

/-- C4 amended: the input `if (a > 0) { y <- a$score }` maps to exactly the
single output line `if a > 0: y = a['score']` — the body stays on the header
line and the key is re-quoted by `repr` to single quotes. -/
theorem single_line_if_amended :
    transform_line ⟨0⟩ "if (a > 0) \x7b y <- a$score \x7d" =
      (["if a > 0: y = a[\x27score\x27]"], ⟨0⟩) := by
  decide

/-! ### C5: the splitter on unbalanced input -/

/-- C5 counterexample: on the unbalanced argument text `1, f(2` the
top-level comma split of `parse_c_vector` does not return the original text
as a single element — it splits at the depth-zero comma into two parts.
(The loop tracks depth but never checks balance.) -/
theorem split_unbalanced_splits :
    splitTopLevel "1, f(2" = ["1", "f(2"] ∧
    splitTopLevel "1, f(2" ≠ ["1, f(2"] := by
  refine ⟨by decide, by decide⟩

/-- C5 amended: the splitter never raises on unbalanced parentheses (it is a
total function), but it does not pass the text through unmodified either: it
splits at parenthesis-depth-zero commas regardless of balance, and only an
unbalanced text without any depth-zero comma comes back as a single element.
`parse_c_vector` likewise completes normally on such input. -/
theorem split_unbalanced_behavior :
    splitTopLevel "1, f(2" = ["1", "f(2"] ∧
    splitTopLevel "f(1, 2" = ["f(1, 2"] ∧
    parse_c_vector "1, f(2" = "[1, f(2]" := by
  refine ⟨by decide, by decide, by decide⟩

/-! ### C6: logical operators in subset conditions -/

/-- C6 counterexample: a spaced `&&` in a subset condition is not rewritten.
The pattern `\b&&\b` demands a word character on both sides of `&&` (since
`&` itself is not a word character), so whitespace around the operator
defeats the match. -/
theorem subset_spaced_andand_kept :
    handle_subset "subset(df, x > 1 && y)" = "df[(x > 1 && y)]" ∧
    ("df[(x > 1 && y)]" : String) ≠ "df[(x > 1 & y)]" := by
  refine ⟨by decide, by decide⟩

/-- C6 amended: `&&` and `||` in a subset condition are rewritten to `&` and
`|` only when immediately flanked by word characters on both sides;
whitespace-surrounded occurrences pass through unchanged. -/
theorem subset_andand_word_adjacent_only :
    handle_subset "subset(df, x>1&&y)" = "df[(x>1&y)]" ∧
    handle_subset "subset(df, x||y)" = "df[(x|y)]" ∧
    handle_subset "subset(df, x > 1 && y)" = "df[(x > 1 && y)]" ∧
    handle_subset "subset(df, x || y)" = "df[(x || y)]" := by
  refine ⟨by decide, by decide, by decide, by decide⟩

/-! ### C9: the indentation invariant -/

/-- C9: `IndentState.apply` keeps the depth non-negative.  A line with `N`
close braces sets the emission depth to `max (level - N) 0` — clamped to
zero whenever the closes exceed the current depth — the emitted line is that
depth's indent prefix followed by the brace-stripped trimmed text, and the
resulting state (after the optional `+1` for a block-opening line) is again
non-negative. -/
theorem indent_apply_nonneg (st : IndentState) (line : String) :
    0 ≤ max (st.level - (line.data.count '\x7d' : Int)) 0 ∧
    (st.apply line).1.data =
      List.replicate
        (4 * (max (st.level - (line.data.count '\x7d' : Int)) 0).toNat) ' ' ++
        pyStrip (pyRstrip (line.data.filter fun c =>
          c ≠ '\x7b' && c ≠ '\x7d')) ∧
    0 ≤ ((st.apply line).2).level ∧
    (st.level - (line.data.count '\x7d' : Int) < 0 →
      max (st.level - (line.data.count '\x7d' : Int)) 0 = 0) := by
  refine ⟨le_max_right _ _, rfl, ?_, fun h => ?_⟩
  · have hmax := le_max_right (st.level - (line.data.count '\x7d' : Int)) (0 : Int)
    show 0 ≤ ((st.apply line).2).level
    simp only [IndentState.apply]
    split <;> omega
  · omega

/-- Witness for C9 at depth 1 and the line `}}` (two closes, one level):
the dedent clamps at zero instead of going negative. -/
theorem indent_apply_nonneg_witness :
    ((⟨1⟩ : IndentState).level -
      (("\x7d\x7d" : String).data.count '\x7d' : Int) < 0) ∧
    max ((⟨1⟩ : IndentState).level -
      (("\x7d\x7d" : String).data.count '\x7d' : Int)) 0 = 0 ∧
    0 ≤ (((⟨1⟩ : IndentState).apply "\x7d\x7d").2).level :=
  ⟨by decide, (indent_apply_nonneg ⟨1⟩ "\x7d\x7d").2.2.2 (by decide),
    (indent_apply_nonneg ⟨1⟩ "\x7d\x7d").2.2.1⟩

/-! ### C10: blank and comment lines -/

theorem dropWhile_append_cons {p : Char → Bool} :
    ∀ {l : List Char} {c : Char} {t : List Char} (m : List Char),
      l.dropWhile p = c :: t → (l ++ m).dropWhile p = c :: (t ++ m)
  | [], _, _, _, h => by simp [List.dropWhile] at h
  | a :: l, c, t, m, h => by
    rw [List.dropWhile_cons] at h
    rw [List.cons_append, List.dropWhile_cons]
    by_cases ha : p a = true
    · rw [if_pos ha] at h ⊢
      exact dropWhile_append_cons m h
    · rw [if_neg ha] at h ⊢
      rw [List.cons.injEq] at h
      rw [List.cons.injEq]
      exact ⟨h.1, by rw [h.2]⟩

theorem pyRstrip_cons_ne_nil {c : Char} (hc : isSpaceCh c = false)
    (t : List Char) : pyRstrip (c :: t) ≠ [] := by
  unfold pyRstrip
  intro h
  rw [List.reverse_eq_nil_iff] at h
  have hall := List.dropWhile_eq_nil_iff.mp h
  have hcmem : c ∈ (c :: t).reverse := by simp
  have := hall c hcmem
  rw [hc] at this
  exact absurd this (by simp)

theorem dropNlRev_id {l : List Char} (h : '\n' ∉ l) :
    l.reverse.dropWhile (· = '\n') = l.reverse := by
  cases hr : l.reverse with
  | nil => rfl
  | cons a t =>
    have ha : a ∈ l := by
      rw [← List.mem_reverse, hr]
      simp
    have hne : a ≠ '\n' := fun he => h (he ▸ ha)
    rw [dropWhile_head_neg (by simp [hne]) t]

theorem rstripNl_no_nl {l : List Char} (h : '\n' ∉ l) : rstripNl l = l := by
  unfold rstripNl
  rw [dropNlRev_id h, List.reverse_reverse]

/-- C10: a whitespace-only input line makes `transform_line` emit exactly one
empty line, and an input line whose first non-whitespace character is `#` is
emitted unchanged except for the removal of a trailing newline; in both
cases no rewrite pass runs, no indent prefix is added, and the indent state
is returned untouched. -/
theorem transform_line_blank_comment (st : IndentState) (s : String) :
    (pyStrip s.data = [] → transform_line st s = ([""], st)) ∧
    ('\n' ∉ s.data → firstNonWsHash s.data = true →
      transform_line st s = ([s], st) ∧
      transform_line st ⟨s.data ++ ['\n']⟩ = ([s], st)) := by
  constructor
  · intro h
    unfold transform_line
    rw [if_pos h]
  · intro hnl hh
    obtain ⟨t, ht⟩ : ∃ t, s.data.dropWhile isSpaceCh = '#' :: t := by
      unfold firstNonWsHash at hh
      cases hd : s.data.dropWhile isSpaceCh with
      | nil =>
        rw [hd] at hh
        simp at hh
      | cons c t =>
        rw [hd] at hh
        simp only [List.head?_cons, Option.some.injEq, decide_eq_true_eq] at hh
        subst hh
        exact ⟨t, rfl⟩
    constructor
    · have hne : pyStrip s.data ≠ [] := by
        unfold pyStrip
        rw [ht]
        exact pyRstrip_cons_ne_nil (by decide) t
      unfold transform_line
      rw [if_neg hne, if_pos hh, rstripNl_no_nl hnl]
    · have ht2 : (s.data ++ ['\n']).dropWhile isSpaceCh = '#' :: (t ++ ['\n']) :=
        dropWhile_append_cons _ ht
      have hne2 : pyStrip (s.data ++ ['\n']) ≠ [] := by
        unfold pyStrip
        rw [ht2]
        exact pyRstrip_cons_ne_nil (by decide) _
      have hh2 : firstNonWsHash (s.data ++ ['\n']) = true := by
        unfold firstNonWsHash
        rw [ht2]
        simp
      have hr2 : rstripNl (s.data ++ ['\n']) = s.data := by
        unfold rstripNl
        rw [List.reverse_append]
        show (('\n' :: s.data.reverse).dropWhile (· = '\n')).reverse = s.data
        rw [List.dropWhile_cons]
        rw [if_pos (by simp)]
        rw [dropNlRev_id hnl, List.reverse_reverse]
      show transform_line st ⟨s.data ++ ['\n']⟩ = ([s], st)
      unfold transform_line
      rw [show (String.mk (s.data ++ ['\n'])).data = s.data ++ ['\n'] from rfl]
      rw [if_neg hne2, if_pos hh2, hr2]

/-- Witness for C10: a spaces-only line, a comment line, and the same
comment line with a trailing newline. -/
theorem transform_line_blank_comment_witness :
    transform_line ⟨0⟩ "   " = ([""], ⟨0⟩) ∧
    transform_line ⟨0⟩ "# hi" = (["# hi"], ⟨0⟩) ∧
    transform_line ⟨0⟩ ⟨"# hi".data ++ ['\n']⟩ = (["# hi"], ⟨0⟩) :=
  ⟨(transform_line_blank_comment ⟨0⟩ "   ").1 (by decide),
   ((transform_line_blank_comment ⟨0⟩ "# hi").2 (by decide) (by decide)).1,
   ((transform_line_blank_comment ⟨0⟩ "# hi").2 (by decide) (by decide)).2⟩

end R2Py
